import Mathlib

/-!
Verification of the stock-tools core: symbol resolution, the SQLite-backed
price store, the incremental updater, and the correlation/ranking engine.
Dates are modelled as natural numbers (days), close prices as rationals;
external collaborators (the yfinance provider, the wall clock) are passed
in as explicit parameters.
-/

/- ===================== Python string primitives ===================== -/

/-- Fuel-driven core of Python `str.replace`: scan left to right, replace
every non-overlapping occurrence of `p :: ps` by `rep`, resuming after the
replaced region.  `fuel ≥ length of the scanned list` makes it total. -/
def replaceAux (p : Char) (ps rep : List Char) : Nat → List Char → List Char
  | 0, s => s
  | _ + 1, [] => []
  | fuel + 1, c :: cs =>
    if (p :: ps).isPrefixOf (c :: cs) then rep ++ replaceAux p ps rep fuel (cs.drop ps.length)
    else c :: replaceAux p ps rep fuel cs

/-- Python `s.replace(pat, rep)` (the patterns used in this code base are
never empty, so the empty-pattern case just returns `s`). -/
def pyReplace (s pat rep : String) : String :=
  match pat.data with
  | [] => s
  | p :: ps => ⟨replaceAux p ps rep.data s.data.length s.data⟩

/-- Python `s.endswith(pat)`. -/
def endsWithL (pat s : List Char) : Bool :=
  s.drop (s.length - pat.length) == pat

/-- `pat` occurs as a contiguous substring of `s`. -/
def hasSub (pat : List Char) : List Char → Bool
  | [] => pat.isEmpty
  | c :: cs => pat.isPrefixOf (c :: cs) || hasSub pat cs

/-- The suffix-stripping expression of `CorrelationEngine.get_full_symbol`:
`symbol.replace('.TW', '').replace('.TWO', '')`. -/
def pyStrip (s : String) : String :=
  pyReplace (pyReplace s ".TW" "") ".TWO" ""

/- ===================== TimeSeriesStore (database.py) ===================== -/

/-- One row of the `stock_prices` table: `(symbol, date, close_price, source)`.
The `UNIQUE(symbol, date)` constraint is expressed by `uniqueKeys` below. -/
structure Row where
  symbol : String
  date : Nat
  close : ℚ
  source : String
deriving DecidableEq, Repr

/-- `INSERT OR REPLACE INTO stock_prices` for one row: the conflicting
`(symbol, date)` row (if any) is deleted and the new row appended. -/
def upsertRow (r : Row) (st : List Row) : List Row :=
  st.filter (fun q => !(q.symbol == r.symbol && q.date == r.date)) ++ [r]

/-- `StockDatabase.insert_stock_prices`: iterate the data frame in order,
doing an `INSERT OR REPLACE` keyed on `(symbol, date)` for each point. -/
def insert_stock_prices (symbol : String) (df : List (Nat × ℚ)) (source : String)
    (st : List Row) : List Row :=
  df.foldl (fun s p => upsertRow ⟨symbol, p.1, p.2, source⟩ s) st

/-- The value stored under key `(s, d)`: the last write wins (matching
`INSERT OR REPLACE`; under `uniqueKeys` there is at most one candidate). -/
def keyVal (st : List Row) (s : String) (d : Nat) : Option (ℚ × String) :=
  (st.reverse.find? (fun r => r.symbol == s && r.date == d)).map (fun r => (r.close, r.source))

/-- The `UNIQUE(symbol, date)` table constraint. -/
def uniqueKeys (st : List Row) : Prop :=
  st.Pairwise (fun a b => ¬(a.symbol = b.symbol ∧ a.date = b.date))

instance uniqueKeys_decidable (st : List Row) : Decidable (uniqueKeys st) := by
  unfold uniqueKeys; infer_instance

/-- A whole history of `insert_stock_prices` calls, run against the freshly
created (empty) table. -/
def runInserts (ops : List (String × List (Nat × ℚ) × String)) : List Row :=
  ops.foldl (fun st op => insert_stock_prices op.1 op.2.1 op.2.2 st) []

/-- The last value a data frame assigns to date `d` (what a sequence of
`INSERT OR REPLACE` statements leaves behind for that date). -/
def dfLast (df : List (Nat × ℚ)) (d : Nat) : Option ℚ :=
  (df.reverse.find? (fun p => p.1 == d)).map (fun p => p.2)

/-- `ORDER BY date DESC` on rows. -/
def dateGe (a b : Row) : Prop := b.date ≤ a.date

instance : DecidableRel dateGe := fun _ _ => Nat.decLe _ _

instance : IsTotal Row dateGe := ⟨fun a b => Nat.le_total b.date a.date⟩

instance : IsTrans Row dateGe := ⟨fun _ _ _ hab hbc => Nat.le_trans hbc hab⟩

/-- Strictly descending date order (what `dateGe` becomes on a list whose
dates are pairwise distinct). -/
def dateGt (a b : Row) : Prop := b.date < a.date

instance : IsAntisymm Row dateGt :=
  ⟨fun _ _ h1 h2 => absurd (Nat.lt_trans h1 h2) (Nat.lt_irrefl _)⟩

/-- The final ascending `sort_index()` on `(date, close)` pairs. -/
def fstLe (a b : Nat × ℚ) : Prop := a.1 ≤ b.1

instance : DecidableRel fstLe := fun _ _ => Nat.decLe _ _

instance : IsTotal (Nat × ℚ) fstLe := ⟨fun a b => Nat.le_total a.1 b.1⟩

instance : IsTrans (Nat × ℚ) fstLe := ⟨fun _ _ _ => Nat.le_trans⟩

/-- `StockDatabase.get_stock_prices`: `SELECT date, close_price WHERE symbol = ?
ORDER BY date DESC LIMIT days`, then re-sorted ascending by date. -/
def get_stock_prices (prices : List Row) (symbol : String) (days : Nat) : List (Nat × ℚ) :=
  (((prices.filter (fun r => r.symbol == symbol)).insertionSort dateGe).take days).map
      (fun r => (r.date, r.close)) |>.insertionSort fstLe

/-- `StockDatabase.get_latest_date`: `SELECT MAX(date) WHERE symbol = ?`. -/
def get_latest_date (prices : List Row) (symbol : String) : Option Nat :=
  ((prices.filter (fun r => r.symbol == symbol)).map (fun r => r.date)).max?

/-- One row of the `stock_list` registry table. -/
structure RegRow where
  symbol : String
  name : String
  market : String
  lastUpdate : Option Nat
deriving DecidableEq, Repr

/-- `StockDatabase.add_stock_to_list`: `INSERT OR IGNORE` keyed on the
`symbol` primary key. -/
def add_stock_to_list (symbol name market : String) (reg : List RegRow) : List RegRow :=
  if reg.any (fun r => r.symbol == symbol) then reg
  else reg ++ [⟨symbol, name, market, none⟩]

/-- `StockDatabase.update_last_update`: `UPDATE stock_list SET last_update`. -/
def update_last_update (symbol : String) (date : Nat) (reg : List RegRow) : List RegRow :=
  reg.map (fun r => if r.symbol == symbol then { r with lastUpdate := some date } else r)

/-- The registry contains a row for `x`. -/
def regHas (reg : List RegRow) (x : String) : Bool :=
  (reg.map (fun r => r.symbol)).any (fun s => s == x)

/-- The two persistent tables together. -/
structure DB where
  prices : List Row
  registry : List RegRow
deriving DecidableEq

def dbEmpty : DB := ⟨[], []⟩

/- ===================== Symbol resolution ===================== -/

namespace CorrelationEngine

/-- `CorrelationEngine.get_full_symbol`: suffix-carrying code with cached
data is returned as-is; otherwise the `replace`-chain builds a base code,
the cache is probed for `.TW` then `.TWO`, then the provider is probed
(`provider c = true` abbreviates "a 5-day yfinance history for `c` is
nonempty"; exceptions are swallowed into `false`). -/
def get_full_symbol (prices : List Row) (provider : String → Bool) (symbol : String) :
    Option String :=
  if (endsWithL ".TW".data symbol.data || endsWithL ".TWO".data symbol.data)
      && !(get_stock_prices prices symbol 5).isEmpty then
    some symbol
  else
    let base := pyStrip symbol
    let tw := base ++ ".TW"
    let two := base ++ ".TWO"
    if !(get_stock_prices prices tw 5).isEmpty then some tw
    else if !(get_stock_prices prices two 5).isEmpty then some two
    else if provider tw then some tw
    else if provider two then some two
    else none

end CorrelationEngine

namespace DataUpdater

/-- `DataUpdater.get_full_symbol`: a suffix-carrying code is returned
unconditionally; otherwise the provider is probed for `symbol + '.TW'`
then `symbol + '.TWO'`. -/
def get_full_symbol (provider : String → Bool) (symbol : String) : Option String :=
  if endsWithL ".TW".data symbol.data || endsWithL ".TWO".data symbol.data then
    some symbol
  else
    let tw := symbol ++ ".TW"
    let two := symbol ++ ".TWO"
    if provider tw then some tw
    else if provider two then some two
    else none

end DataUpdater

/- ===================== CorrelationEngine.calculate_correlation ===================== -/

/-- `DataFrame.tail(n)`: the last `n` rows. -/
def tailN (l : List (Nat × ℚ)) (n : Nat) : List (Nat × ℚ) :=
  l.drop (l.length - n)

/-- `pd.merge(df1, df2, left_index=True, right_index=True)`: inner join on
the date index (dates are unique per series, coming from the store). -/
def innerJoin (l1 l2 : List (Nat × ℚ)) : List (Nat × (ℚ × ℚ)) :=
  l1.filterMap (fun p => (l2.lookup p.1).map (fun c2 => (p.1, (p.2, c2))))

/-- The joined set of the two `days`-truncated series. -/
def joined (data1 data2 : List (Nat × ℚ)) (days : Nat) : List (Nat × (ℚ × ℚ)) :=
  innerJoin (tailN data1 days) (tailN data2 days)

def qsum (l : List ℚ) : ℚ := l.foldr (· + ·) 0

def qmean (l : List ℚ) : ℚ := qsum l / l.length

/-- Deviations from the mean. -/
def centered (l : List ℚ) : List ℚ := l.map (fun x => x - qmean l)

/-- Sum of products of deviations (`n·cov`). -/
def sxy (xs ys : List ℚ) : ℚ :=
  qsum (List.zipWith (· * ·) (centered xs) (centered ys))

/-- Sum of squared deviations (`n·variance`). -/
def ssd (xs : List ℚ) : ℚ := sxy xs xs

/-- `Series.corr` (pandas Pearson) on two equal-length samples.  It is NaN
(`none`) exactly when there are fewer than 2 samples or either sample has
zero variance.  The source's defined value is `r = sxy/√(ssd·ssd)`, which
is irrational in general; we represent it by its signed square
`r·|r| = sxy·|sxy|/(ssd xs · ssd ys)`, a strictly monotone image of `r`
definable over `ℚ`; the NaN cases are unchanged. -/
def pearsonQ (xs ys : List ℚ) : Option ℚ :=
  if xs.length < 2 ∨ ssd xs = 0 ∨ ssd ys = 0 then none
  else some (sxy xs ys * |sxy xs ys| / (ssd xs * ssd ys))

/-- `CorrelationEngine.calculate_correlation`: truncate both series to
their last `days` points, gate on `len < days * 0.7` for each, inner-join
on date, gate on `len(merged) < days * 0.7`, then Pearson.  The Python
comparison `len < days * 0.7` on an integer length agrees with the exact
rational comparison `10·len < 7·days` used here. -/
def calculate_correlation (data1 data2 : List (Nat × ℚ)) (days : Nat) : Option ℚ :=
  if 10 * (tailN data1 days).length < 7 * days ∨ 10 * (tailN data2 days).length < 7 * days then
    none
  else if 10 * (joined data1 data2 days).length < 7 * days then none
  else
    pearsonQ ((joined data1 data2 days).map (fun p => p.2.1))
      ((joined data1 data2 days).map (fun p => p.2.2))

/- ===================== IncrementalUpdater (data_updater.py) ===================== -/

/-- A persistence-layer (SQLite) failure raised inside `update_stock`'s
`try` block. -/
inductive StoreErr where
  | store
deriving DecidableEq

instance exceptDecEq {ε α : Type} [DecidableEq ε] [DecidableEq α] : DecidableEq (Except ε α) :=
  fun x y =>
    match x, y with
    | .ok a, .ok b =>
      if h : a = b then .isTrue (by rw [h]) else .isFalse (fun he => by cases he; exact h rfl)
    | .ok _, .error _ => .isFalse (fun he => by cases he)
    | .error _, .ok _ => .isFalse (fun he => by cases he)
    | .error e, .error f =>
      if h : e = f then .isTrue (by rw [h]) else .isFalse (fun he => by cases he; exact h rfl)

/-- The fetch start date computed by `update_stock`. -/
def fetch_start (now days : Nat) : Option Nat → Nat
  | some ld => ld + 1
  | none => now - (days + 60)

/-- The fetch-and-write tail of `update_stock`'s `try` block.  `fetch`
abstracts `fetch_stock_data` (`none` for a failed or empty fetch);
`storeFail = true` injects a persistence-layer exception at the
`insert_stock_prices` write. -/
def fetch_and_store (now : Nat) (fetch : String → Nat → Nat → Option (List (Nat × ℚ)))
    (storeFail : Bool) (sym : String) (start : Nat) (db : DB) : Except StoreErr (Bool × DB) :=
  match fetch sym start now with
  | none => .ok (false, db)
  | some df =>
    if df.isEmpty then .ok (false, db)
    else if storeFail then .error .store
    else .ok (true, ⟨insert_stock_prices sym df "TWSE" db.prices,
                     update_last_update sym now db.registry⟩)

/-- The body of `DataUpdater.update_stock`'s `try` block: start at
`latest + 1` when the store has data (no-op success if that is already
`≥ now`), else at `now − (days + 60)`; then fetch and write back. -/
def update_stock_try (now : Nat) (fetch : String → Nat → Nat → Option (List (Nat × ℚ)))
    (storeFail : Bool) (sym : String) (days : Nat) (db : DB) : Except StoreErr (Bool × DB) :=
  match get_latest_date db.prices sym with
  | some ld =>
    if now ≤ ld + 1 then .ok (true, db)
    else fetch_and_store now fetch storeFail sym (ld + 1) db
  | none => fetch_and_store now fetch storeFail sym (now - (days + 60)) db

/-- `DataUpdater.update_stock`: the `try` body wrapped in the blanket
`except Exception: return False` clause. -/
def update_stock (now : Nat) (fetch : String → Nat → Nat → Option (List (Nat × ℚ)))
    (storeFail : Bool) (sym : String) (days : Nat) (db : DB) : Bool × DB :=
  match update_stock_try now fetch storeFail sym days db with
  | .ok r => r
  | .error _ => (false, db)

/-- The summary a batch run reports, plus the final store state. -/
structure BatchOut where
  success : Nat
  fail : Nat
  db : DB
deriving DecidableEq

/-- One iteration of `update_all_stocks`'s loop: register the symbol, then
update it, counting the outcome. -/
def batch_step (now : Nat) (fetch : String → Nat → Nat → Option (List (Nat × ℚ)))
    (storeFail : String → Bool) (days : Nat) (acc : BatchOut) (p : String × String) : BatchOut :=
  match update_stock now fetch (storeFail p.1) p.1 days
      ⟨acc.db.prices, add_stock_to_list p.1 p.2 "TW" acc.db.registry⟩ with
  | (true, db2) => ⟨acc.success + 1, acc.fail, db2⟩
  | (false, db2) => ⟨acc.success, acc.fail + 1, db2⟩

/-- `DataUpdater.update_all_stocks`: sequential loop in input order over
`(symbol, name)` pairs (the inter-request `time.sleep` has no observable
effect on the store and is not modelled). -/
def update_all_stocks (now : Nat) (fetch : String → Nat → Nat → Option (List (Nat × ℚ)))
    (storeFail : String → Bool) (stock_list : List (String × String)) (days : Nat)
    (db : DB) : BatchOut :=
  stock_list.foldl (batch_step now fetch storeFail days) ⟨0, 0, db⟩

/- ===================== Ranking (find_correlated_stocks) ===================== -/

/-- One entry of the ranking leaderboard. -/
structure RankEntry where
  symbol : String
  name : String
  corr_120 : ℚ
  corr_20 : ℚ
  corr_10 : ℚ
deriving DecidableEq

/-- Lexicographic order on coefficient triples. -/
def lexLe3 (x y : ℚ × ℚ × ℚ) : Prop :=
  x.1 < y.1 ∨ (x.1 = y.1 ∧ (x.2.1 < y.2.1 ∨ (x.2.1 = y.2.1 ∧ x.2.2 ≤ y.2.2)))

instance lexLe3_decidable (x y : ℚ × ℚ × ℚ) : Decidable (lexLe3 x y) := by
  unfold lexLe3; infer_instance

/-- The sort key of a leaderboard entry. -/
def keyOf (e : RankEntry) : ℚ × ℚ × ℚ := (e.corr_120, e.corr_20, e.corr_10)

/-- Descending lexicographic comparison used to sort the leaderboard. -/
def rankRel (a b : RankEntry) : Prop := lexLe3 (keyOf b) (keyOf a)

instance rankRel_decidable : DecidableRel rankRel := by
  unfold rankRel; infer_instance

/-- Display-name lookup from the registry (empty string if unregistered). -/
def regName (reg : List RegRow) (sym : String) : String :=
  match reg.find? (fun r => r.symbol == sym) with
  | some r => r.name
  | none => ""

/-- Modelled from the spec: `find_correlated_stocks` has no definition in
the source (only call sites in `main_gui.py`, `test_system.py` and
`correlation_engine.py`); this follows §4.4 `rankBySimilarity`: resolve
the target and load its last 120 points (NotFound, i.e. `none`, if
unresolvable or empty); for every other candidate with data, compute the
120/20/10-day windowed correlations, drop the candidate if all three are
undefined, substitute 0.0 for undefined values, sort descending by the
lexicographic key tuple and return the first `top_n` with display names. -/
def find_correlated_stocks (prices : List Row) (reg : List RegRow)
    (provider : String → Bool) (target : String) (univ : List String) (top_n : Nat) :
    Option (List RankEntry) :=
  match CorrelationEngine.get_full_symbol prices provider target with
  | none => none
  | some tgt =>
    let tdata := get_stock_prices prices tgt 120
    if tdata.isEmpty then none
    else
      let cands := univ.filterMap (fun sym =>
        if sym = tgt then none
        else
          let d := get_stock_prices prices sym 120
          if d.isEmpty then none
          else
            let c120 := calculate_correlation tdata d 120
            let c20 := calculate_correlation tdata d 20
            let c10 := calculate_correlation tdata d 10
            if c120.isNone && c20.isNone && c10.isNone then none
            else some ⟨sym, regName reg sym, c120.getD 0, c20.getD 0, c10.getD 0⟩)
      some ((cands.insertionSort rankRel).take top_n)

/- ===================== Concrete scenario data ===================== -/

/-- Five-symbol batch where the third symbol's fetch fails with a provider
error (modelled as `none`) and the rest return one price point. -/
def fetch5 : String → Nat → Nat → Option (List (Nat × ℚ)) :=
  fun sym _ _ => if sym == "S3" then none else some [(1, 1)]

def syms5 : List (String × String) :=
  [("S1", "a"), ("S2", "b"), ("S3", "c"), ("S4", "d"), ("S5", "e")]

/- ===================== String lemmas ===================== -/

theorem hasSub_of_parts (p : Char) (ps t u s : List Char)
    (h : s = t ++ ((p :: ps) ++ u)) : hasSub (p :: ps) s = true := by
  induction t generalizing s with
  | nil =>
    subst h
    have hp : (p :: ps) <+: ((p :: ps) ++ u) := List.prefix_append _ _
    simp only [List.nil_append, List.cons_append] at hp ⊢
    simp [hasSub, List.isPrefixOf_iff_prefix, hp]
  | cons c cs ih =>
    subst h
    have hr := ih (cs ++ ((p :: ps) ++ u)) rfl
    simp only [List.cons_append] at hr
    simp [hasSub, hr]

theorem hasSub_mono (l₁ l₂ : List Char) : ∀ s, hasSub (l₁ ++ l₂) s = true → l₁ ≠ [] →
    hasSub l₁ s = true := by
  intro s
  induction s with
  | nil =>
    intro h hne
    simp only [hasSub, List.isEmpty_iff, List.append_eq_nil] at h
    exact absurd h.1 hne
  | cons c cs ih =>
    intro h hne
    simp only [hasSub, Bool.or_eq_true, List.isPrefixOf_iff_prefix] at h ⊢
    rcases h with h | h
    · exact Or.inl ((List.prefix_append l₁ l₂).trans h)
    · exact Or.inr (ih h hne)

theorem replaceAux_no_occ (p : Char) (ps rep : List Char) (fuel : Nat) :
    ∀ s, hasSub (p :: ps) s = false → replaceAux p ps rep fuel s = s := by
  induction fuel with
  | zero => intro s _; rfl
  | succ n ih =>
    intro s h
    cases s with
    | nil => rfl
    | cons c cs =>
      simp only [hasSub, Bool.or_eq_false_iff] at h
      simp only [replaceAux, h.1, Bool.false_eq_true, if_false]
      rw [ih cs h.2]

theorem endsWithL_suffix (pat s : List Char) (h : endsWithL pat s = true) :
    ∃ t, s = t ++ pat := by
  unfold endsWithL at h
  refine ⟨s.take (s.length - pat.length), ?_⟩
  conv_lhs => rw [← List.take_append_drop (s.length - pat.length) s]
  rw [eq_of_beq h]

theorem endsWith_TW_hasSub (s : List Char) (h : endsWithL ".TW".data s = true) :
    hasSub ['.', 'T', 'W'] s = true := by
  obtain ⟨t, ht⟩ := endsWithL_suffix _ _ h
  refine hasSub_of_parts '.' ['T', 'W'] t [] s ?_
  simpa using ht

theorem endsWith_TWO_hasSub (s : List Char) (h : endsWithL ".TWO".data s = true) :
    hasSub ['.', 'T', 'W'] s = true := by
  obtain ⟨t, ht⟩ := endsWithL_suffix _ _ h
  refine hasSub_of_parts '.' ['T', 'W'] t ['O'] s ?_
  simpa using ht

theorem hasSub_TWO_of_TW (s : List Char) (h : hasSub ['.', 'T', 'W'] s = false) :
    hasSub ['.', 'T', 'W', 'O'] s = false := by
  cases hh : hasSub ['.', 'T', 'W', 'O'] s
  · rfl
  · have := hasSub_mono ['.', 'T', 'W'] ['O'] s (by simpa using hh) (by simp)
    rw [this] at h
    cases h

theorem pyReplace_TW_id (s : String) (h : hasSub ['.', 'T', 'W'] s.data = false) :
    pyReplace s ".TW" "" = s := by
  show String.mk (replaceAux '.' ['T', 'W'] "".data s.data.length s.data) = s
  rw [replaceAux_no_occ _ _ _ _ _ h]

theorem pyReplace_TWO_id (s : String) (h : hasSub ['.', 'T', 'W', 'O'] s.data = false) :
    pyReplace s ".TWO" "" = s := by
  show String.mk (replaceAux '.' ['T', 'W', 'O'] "".data s.data.length s.data) = s
  rw [replaceAux_no_occ _ _ _ _ _ h]

theorem pyStrip_id (s : String) (h : hasSub ['.', 'T', 'W'] s.data = false) :
    pyStrip s = s := by
  unfold pyStrip
  rw [pyReplace_TW_id s h, pyReplace_TWO_id s (hasSub_TWO_of_TW _ h)]

theorem endsWith_TW_false (s : String) (h : hasSub ['.', 'T', 'W'] s.data = false) :
    endsWithL ".TW".data s.data = false := by
  cases he : endsWithL ".TW".data s.data
  · rfl
  · rw [endsWith_TW_hasSub s.data he] at h
    cases h

theorem endsWith_TWO_false (s : String) (h : hasSub ['.', 'T', 'W'] s.data = false) :
    endsWithL ".TWO".data s.data = false := by
  cases he : endsWithL ".TWO".data s.data
  · rfl
  · rw [endsWith_TWO_hasSub s.data he] at h
    cases h

theorem get_stock_prices_nil (symbol : String) (days : Nat) :
    get_stock_prices [] symbol days = [] := by
  simp [get_stock_prices, List.insertionSort]

/- ===================== Claim C2 / C9: correlation gating ===================== -/

/-- C2: `calculate_correlation` returns the undefined marker (`none`, i.e.
NaN) whenever either `days`-truncated series, or their date-join, has
fewer than `ceil(0.7 × days)` points (for an integer length `n`,
`n < ceil(7·days/10)` is exactly `10·n < 7·days`). -/
theorem calculate_correlation_sufficiency_gates (data1 data2 : List (Nat × ℚ)) (days : Nat)
    (h : 10 * (tailN data1 days).length < 7 * days ∨
         10 * (tailN data2 days).length < 7 * days ∨
         10 * (joined data1 data2 days).length < 7 * days) :
    calculate_correlation data1 data2 days = none := by
  unfold calculate_correlation
  rcases h with h | h | h
  · rw [if_pos (Or.inl h)]
  · rw [if_pos (Or.inr h)]
  · by_cases hg : 10 * (tailN data1 days).length < 7 * days ∨
        10 * (tailN data2 days).length < 7 * days
    · rw [if_pos hg]
    · rw [if_neg hg, if_pos h]

theorem calculate_correlation_sufficiency_gates_witness :
    (10 * (tailN [((1 : Nat), (1 : ℚ))] 10).length < 7 * 10 ∨
     10 * (tailN [((1 : Nat), (1 : ℚ))] 10).length < 7 * 10 ∨
     10 * (joined [((1 : Nat), (1 : ℚ))] [((1 : Nat), (1 : ℚ))] 10).length < 7 * 10) ∧
    calculate_correlation [((1 : Nat), (1 : ℚ))] [((1 : Nat), (1 : ℚ))] 10 = none :=
  ⟨Or.inl (by decide), calculate_correlation_sufficiency_gates _ _ _ (Or.inl (by decide))⟩

/-- C9: when the joined set has fewer than 2 points, or either aligned
close-price sequence has zero variance, `calculate_correlation` returns
the undefined marker (`none`) rather than a number or an exception. -/
theorem calculate_correlation_degenerate_undefined (data1 data2 : List (Nat × ℚ)) (days : Nat)
    (h : (joined data1 data2 days).length < 2 ∨
         ssd ((joined data1 data2 days).map (fun p => p.2.1)) = 0 ∨
         ssd ((joined data1 data2 days).map (fun p => p.2.2)) = 0) :
    calculate_correlation data1 data2 days = none := by
  unfold calculate_correlation
  by_cases h1 : 10 * (tailN data1 days).length < 7 * days ∨
      10 * (tailN data2 days).length < 7 * days
  · rw [if_pos h1]
  · rw [if_neg h1]
    by_cases h2 : 10 * (joined data1 data2 days).length < 7 * days
    · rw [if_pos h2]
    · rw [if_neg h2]
      unfold pearsonQ
      have hc : ((joined data1 data2 days).map (fun p => p.2.1)).length < 2 ∨
          ssd ((joined data1 data2 days).map (fun p => p.2.1)) = 0 ∨
          ssd ((joined data1 data2 days).map (fun p => p.2.2)) = 0 := by
        rcases h with h | h | h
        · exact Or.inl (by simpa using h)
        · exact Or.inr (Or.inl h)
        · exact Or.inr (Or.inr h)
      rw [if_pos hc]

theorem calculate_correlation_degenerate_undefined_witness :
    (joined [((1 : Nat), (1 : ℚ))] [((1 : Nat), (1 : ℚ))] 0).length < 2 ∧
    calculate_correlation [((1 : Nat), (1 : ℚ))] [((1 : Nat), (1 : ℚ))] 0 = none :=
  ⟨by decide, calculate_correlation_degenerate_undefined _ _ _ (Or.inl (by decide))⟩

/- ===================== Claim C1: suffix resolution ===================== -/

/-- C1: evaluation at the failing input.  The claim says the suffix is
stripped to the bare base code; the code's `replace('.TW','')` instead
eats the `.TW` inside a `.TWO` suffix, so resolving `"1234.TWO"` when the
cache only holds `"1234.TW"` probes `"1234O.TW"`/`"1234O.TWO"` and
returns `none` where the claimed algorithm would return `"1234.TW"`.
The third conjunct checks the claim's own positive scenario (bare
`"1234"` with only `"1234.TWO"` cached) does hold. -/
theorem get_full_symbol_suffix_mangling_eval :
    pyStrip "1234.TWO" = "1234O" ∧
    CorrelationEngine.get_full_symbol [⟨"1234.TW", 1, 1, "TWSE"⟩] (fun _ => false) "1234.TWO"
      = none ∧
    CorrelationEngine.get_full_symbol [⟨"1234.TWO", 1, 1, "TWSE"⟩] (fun _ => false) "1234"
      = some "1234.TWO" :=
  ⟨by decide, by decide, by decide⟩

/- ===================== Claim C10: the two resolvers ===================== -/

/-- C10: counterexample.  For a suffix-carrying code with no cached data,
`DataUpdater.get_full_symbol` returns it as-is while
`CorrelationEngine.get_full_symbol` falls through to its probes and
returns `none`, so the two implementations do not compute the same
result. -/
theorem resolver_implementations_disagree :
    CorrelationEngine.get_full_symbol [] (fun _ => false) "9999.TW" = none ∧
    DataUpdater.get_full_symbol (fun _ => false) "9999.TW" = some "9999.TW" ∧
    CorrelationEngine.get_full_symbol [] (fun _ => false) "9999.TW"
      ≠ DataUpdater.get_full_symbol (fun _ => false) "9999.TW" :=
  ⟨by decide, by decide, by decide⟩

/-- C10 (amended): the two resolvers agree on codes that contain no
`".TW"` fragment (in particular all bare codes) when the cache holds no
data at all; for suffix-carrying codes they may differ. -/
theorem resolvers_agree_on_bare_codes_empty_cache (provider : String → Bool) (symbol : String)
    (h : hasSub ['.', 'T', 'W'] symbol.data = false) :
    CorrelationEngine.get_full_symbol [] provider symbol
      = DataUpdater.get_full_symbol provider symbol := by
  unfold CorrelationEngine.get_full_symbol DataUpdater.get_full_symbol
  rw [endsWith_TW_false symbol h, endsWith_TWO_false symbol h, pyStrip_id symbol h]
  simp [get_stock_prices_nil]

theorem resolvers_agree_on_bare_codes_empty_cache_witness :
    hasSub ['.', 'T', 'W'] "9999".data = false ∧
    CorrelationEngine.get_full_symbol [] (fun s => s == "9999.TWO") "9999"
      = DataUpdater.get_full_symbol (fun s => s == "9999.TWO") "9999" :=
  ⟨by decide, resolvers_agree_on_bare_codes_empty_cache _ "9999" (by decide)⟩

/- ===================== Claim C8: store-failure handling ===================== -/

/-- C8: counterexample.  A persistence-layer failure raised while writing
(`update_stock_try` evaluates to `.error .store`) is not propagated:
`update_stock`'s blanket handler converts it into the per-symbol soft
failure `(false, db)`, and `update_all_stocks` keeps going, reporting it
in the failure count. -/
theorem store_error_swallowed_eval :
    update_stock_try 10 (fun _ _ _ => some [(1, 1)]) true "A" 120 dbEmpty
      = .error .store ∧
    update_stock 10 (fun _ _ _ => some [(1, 1)]) true "A" 120 dbEmpty = (false, dbEmpty) ∧
    (update_all_stocks 10 (fun _ _ _ => some [(1, 1)]) (fun s => s == "A")
        [("A", ""), ("B", "")] 120 dbEmpty).success = 1 ∧
    (update_all_stocks 10 (fun _ _ _ => some [(1, 1)]) (fun s => s == "A")
        [("A", ""), ("B", "")] 120 dbEmpty).fail = 1 :=
  ⟨by decide, by decide, by decide, by decide⟩

/-- C8 (amended): a store failure inside `update_stock`'s `try` block is
caught by the blanket `except Exception` clause and converted into that
symbol's soft failure: the call returns `(false, db)` with the store
unchanged instead of propagating the error to the caller. -/
theorem store_error_soft_failure (now : Nat)
    (fetch : String → Nat → Nat → Option (List (Nat × ℚ))) (sym : String) (days : Nat)
    (db : DB) (e : StoreErr)
    (h : update_stock_try now fetch true sym days db = .error e) :
    update_stock now fetch true sym days db = (false, db) := by
  unfold update_stock
  rw [h]

theorem store_error_soft_failure_witness :
    update_stock_try 11 (fun _ _ _ => some [(2, 3)]) true "Z" 120 dbEmpty = .error .store ∧
    update_stock 11 (fun _ _ _ => some [(2, 3)]) true "Z" 120 dbEmpty = (false, dbEmpty) :=
  ⟨by decide, store_error_soft_failure 11 _ "Z" 120 dbEmpty .store (by decide)⟩

/- ===================== Claim C6: update_stock ===================== -/

/-- C6: `update_stock` starts the fetch at `latest + 1` when the store has
a latest date for the symbol — reporting success with no fetch and no
write when that start is already `≥ now` — and at `now − (days + 60)`
when it has none; an empty (`some []`) or failed (`none`) fetch yields
`false` with the store untouched, and a nonempty fetch upserts the points
and sets the symbol's last-update date to `now`. -/
theorem update_stock_fetch_window (now : Nat)
    (fetch : String → Nat → Nat → Option (List (Nat × ℚ))) (sym : String) (days : Nat)
    (db : DB) :
    ((∃ ld, get_latest_date db.prices sym = some ld ∧ now ≤ ld + 1) →
        update_stock now fetch false sym days db = (true, db)) ∧
    ((∀ ld, get_latest_date db.prices sym = some ld → ld + 1 < now) →
      ((fetch sym (fetch_start now days (get_latest_date db.prices sym)) now = none ∨
        fetch sym (fetch_start now days (get_latest_date db.prices sym)) now = some []) →
          update_stock now fetch false sym days db = (false, db)) ∧
      (∀ df, fetch sym (fetch_start now days (get_latest_date db.prices sym)) now = some df →
          df ≠ [] →
          update_stock now fetch false sym days db =
            (true, ⟨insert_stock_prices sym df "TWSE" db.prices,
                    update_last_update sym now db.registry⟩))) := by
  constructor
  · rintro ⟨ld, hld, hle⟩
    unfold update_stock update_stock_try
    rw [hld]
    simp [hle]
  · intro hfresh
    refine ⟨?_, ?_⟩
    · intro hf
      unfold update_stock update_stock_try fetch_and_store
      cases hld : get_latest_date db.prices sym with
      | some ld =>
        rw [hld] at hf
        simp only [fetch_start] at hf
        have hnle : ¬ now ≤ ld + 1 := by have := hfresh ld hld; omega
        simp only [hnle, if_false]
        rcases hf with hf | hf <;> rw [hf] <;> simp
      | none =>
        rw [hld] at hf
        simp only [fetch_start] at hf
        rcases hf with hf | hf <;> rw [hf] <;> simp
    · intro df hf hne
      unfold update_stock update_stock_try fetch_and_store
      cases hld : get_latest_date db.prices sym with
      | some ld =>
        rw [hld] at hf
        simp only [fetch_start] at hf
        have hnle : ¬ now ≤ ld + 1 := by have := hfresh ld hld; omega
        simp only [hnle, if_false]
        rw [hf]
        simp [List.isEmpty_iff, hne]
      | none =>
        rw [hld] at hf
        simp only [fetch_start] at hf
        rw [hf]
        simp [List.isEmpty_iff, hne]

theorem update_stock_fetch_window_witness :
    (∃ ld, get_latest_date (⟨[⟨"A", 5, 1, "TWSE"⟩], []⟩ : DB).prices "A" = some ld ∧
        6 ≤ ld + 1) ∧
    update_stock 6 (fun _ _ _ => none) false "A" 120 ⟨[⟨"A", 5, 1, "TWSE"⟩], []⟩
      = (true, ⟨[⟨"A", 5, 1, "TWSE"⟩], []⟩) ∧
    update_stock 7 (fun _ _ _ => none) false "B" 120 dbEmpty = (false, dbEmpty) ∧
    update_stock 7 (fun _ _ _ => some [(1, 2)]) false "B" 120 dbEmpty
      = (true, ⟨insert_stock_prices "B" [(1, 2)] "TWSE" [],
                update_last_update "B" 7 []⟩) :=
  ⟨⟨5, by decide, by decide⟩,
   (update_stock_fetch_window 6 (fun _ _ _ => none) "A" 120 ⟨[⟨"A", 5, 1, "TWSE"⟩], []⟩).1
     ⟨5, by decide, by decide⟩,
   ((update_stock_fetch_window 7 (fun _ _ _ => none) "B" 120 dbEmpty).2
     (fun ld hld => by
       rw [show get_latest_date dbEmpty.prices "B" = (none : Option Nat) from rfl] at hld
       cases hld)).1 (Or.inl rfl),
   ((update_stock_fetch_window 7 (fun _ _ _ => some [(1, 2)]) "B" 120 dbEmpty).2
     (fun ld hld => by
       rw [show get_latest_date dbEmpty.prices "B" = (none : Option Nat) from rfl] at hld
       cases hld)).2 [(1, 2)] rfl (by decide)⟩

/- ===================== Store lemmas ===================== -/

theorem find?_filter_keep (q keep : Row → Bool) (hqk : ∀ x, q x = true → keep x = true) :
    ∀ l : List Row, (l.filter keep).find? q = l.find? q := by
  intro l
  induction l with
  | nil => rfl
  | cons x xs ih =>
    by_cases hk : keep x = true
    · rw [List.filter_cons_of_pos hk]
      by_cases hq : q x = true
      · rw [List.find?_cons_of_pos _ hq, List.find?_cons_of_pos _ hq]
      · rw [List.find?_cons_of_neg _ hq, List.find?_cons_of_neg _ hq, ih]
    · have hq : ¬ q x = true := fun hqx => hk (hqk x hqx)
      rw [List.filter_cons_of_neg (by simpa using hk), ih, List.find?_cons_of_neg _ hq]

theorem keyVal_upsert (r : Row) (st : List Row) (s : String) (d : Nat) :
    keyVal (upsertRow r st) s d =
      if s = r.symbol ∧ d = r.date then some (r.close, r.source) else keyVal st s d := by
  unfold keyVal upsertRow
  rw [List.reverse_append]
  by_cases h : s = r.symbol ∧ d = r.date
  · rw [if_pos h]
    obtain ⟨h1, h2⟩ := h
    subst h1
    subst h2
    simp only [List.reverse_cons, List.reverse_nil, List.nil_append, List.cons_append,
      List.nil_append]
    rw [List.find?_cons_of_pos _ (by simp)]
    rfl
  · rw [if_neg h]
    have hqr : (r.symbol == s && r.date == d) = false := by
      by_cases h1 : r.symbol = s
      · by_cases h2 : r.date = d
        · exact absurd ⟨h1.symm, h2.symm⟩ h
        · simp [h2]
      · simp [h1]
    simp only [List.reverse_cons, List.reverse_nil, List.nil_append, List.cons_append]
    rw [List.find?_cons_of_neg _ (by simp [hqr]), ← List.filter_reverse]
    rw [find?_filter_keep _ _ ?_ st.reverse]
    intro x hx
    have hx1 : x.symbol = s := eq_of_beq (Bool.and_elim_left hx)
    have hx2 : x.date = d := eq_of_beq (Bool.and_elim_right hx)
    have : (x.symbol == r.symbol && x.date == r.date) = false := by
      by_cases e1 : x.symbol = r.symbol
      · by_cases e2 : x.date = r.date
        · exact absurd ⟨hx1.symm.trans e1, hx2.symm.trans e2⟩ h
        · simp [e2]
      · simp [e1]
    simp [this]

theorem uniqueKeys_upsert (r : Row) (st : List Row) (h : uniqueKeys st) :
    uniqueKeys (upsertRow r st) := by
  unfold uniqueKeys upsertRow
  rw [List.pairwise_append]
  refine ⟨h.sublist (List.filter_sublist st), by simp, ?_⟩
  intro a ha b hb
  rw [List.mem_singleton] at hb
  subst hb
  rw [List.mem_filter] at ha
  intro hcon
  have hbt : (a.symbol == b.symbol && a.date == b.date) = true := by
    rw [hcon.1, hcon.2]
    simp
  rw [hbt] at ha
  simp at ha

theorem uniqueKeys_insert (sym : String) (df : List (Nat × ℚ)) (src : String) :
    ∀ st, uniqueKeys st → uniqueKeys (insert_stock_prices sym df src st) := by
  induction df with
  | nil => intro st h; exact h
  | cons p rest ih =>
    intro st h
    exact ih _ (uniqueKeys_upsert _ _ h)

theorem uniqueKeys_foldInserts (ops : List (String × List (Nat × ℚ) × String)) :
    ∀ st, uniqueKeys st →
      uniqueKeys (ops.foldl (fun st op => insert_stock_prices op.1 op.2.1 op.2.2 st) st) := by
  induction ops with
  | nil => intro st h; exact h
  | cons op rest ih =>
    intro st h
    exact ih _ (uniqueKeys_insert _ _ _ _ h)

theorem dfLast_cons (p : Nat × ℚ) (rest : List (Nat × ℚ)) (d : Nat) :
    dfLast (p :: rest) d =
      match dfLast rest d with
      | some c => some c
      | none => if p.1 == d then some p.2 else none := by
  unfold dfLast
  rw [List.reverse_cons, List.find?_append]
  cases hrest : rest.reverse.find? (fun q => q.1 == d) with
  | some c => simp
  | none =>
    by_cases hp : (p.1 == d) = true
    · simp [List.find?, hp]
    · simp [List.find?, hp]

theorem keyVal_insert_ne (sym src : String) (df : List (Nat × ℚ)) (s : String) (d : Nat)
    (hs : s ≠ sym) : ∀ st, keyVal (insert_stock_prices sym df src st) s d = keyVal st s d := by
  induction df with
  | nil => intro st; rfl
  | cons p rest ih =>
    intro st
    rw [show insert_stock_prices sym (p :: rest) src st
        = insert_stock_prices sym rest src (upsertRow ⟨sym, p.1, p.2, src⟩ st) from rfl]
    rw [ih, keyVal_upsert, if_neg (fun hc => hs hc.1)]

theorem keyVal_insert_eq (sym src : String) (df : List (Nat × ℚ)) (d : Nat) :
    ∀ st, keyVal (insert_stock_prices sym df src st) sym d =
      match dfLast df d with
      | some c => some (c, src)
      | none => keyVal st sym d := by
  induction df with
  | nil => intro st; rfl
  | cons p rest ih =>
    intro st
    rw [show insert_stock_prices sym (p :: rest) src st
        = insert_stock_prices sym rest src (upsertRow ⟨sym, p.1, p.2, src⟩ st) from rfl]
    rw [ih, dfLast_cons]
    cases hr : dfLast rest d with
    | some c => rfl
    | none =>
      by_cases hp : p.1 = d
      · rw [keyVal_upsert, if_pos ⟨rfl, hp.symm⟩]
        simp [hp]
      · rw [keyVal_upsert, if_neg (fun hc => hp hc.2.symm)]
        simp [hp]

/- ===================== Claim C3: idempotent upserts ===================== -/

/-- C3: price writes are idempotent upserts keyed on `(symbol, date)`: any
history of `insert_stock_prices` calls leaves at most one row per key
(and single inserts preserve that invariant), a single upsert stores the
new value for its key without touching any other key, and re-running the
same `insert_stock_prices` call leaves the key-to-value map of the point
set unchanged. -/
theorem price_upsert_idempotent :
    (∀ ops, uniqueKeys (runInserts ops)) ∧
    (∀ st sym df src, uniqueKeys st → uniqueKeys (insert_stock_prices sym df src st)) ∧
    (∀ st (r : Row), keyVal (upsertRow r st) r.symbol r.date = some (r.close, r.source) ∧
       ∀ s d, ¬(s = r.symbol ∧ d = r.date) → keyVal (upsertRow r st) s d = keyVal st s d) ∧
    (∀ st sym df src s d,
       keyVal (insert_stock_prices sym df src (insert_stock_prices sym df src st)) s d
         = keyVal (insert_stock_prices sym df src st) s d) := by
  refine ⟨?_, ?_, ?_, ?_⟩
  · intro ops
    exact uniqueKeys_foldInserts ops [] List.Pairwise.nil
  · intro st sym df src h
    exact uniqueKeys_insert sym df src st h
  · intro st r
    constructor
    · rw [keyVal_upsert, if_pos ⟨rfl, rfl⟩]
    · intro s d hne
      rw [keyVal_upsert, if_neg hne]
  · intro st sym df src s d
    by_cases hs : s = sym
    · subst hs
      rw [keyVal_insert_eq, keyVal_insert_eq]
      cases hr : dfLast df d with
      | some c => rfl
      | none => rfl
    · rw [keyVal_insert_ne _ _ _ _ _ hs, keyVal_insert_ne _ _ _ _ _ hs]

theorem price_upsert_idempotent_witness :
    uniqueKeys (runInserts [("A", [(1, 2), (1, 3)], "TWSE")]) ∧
    uniqueKeys [(⟨"B", 1, 7, "TWSE"⟩ : Row)] ∧
    uniqueKeys (insert_stock_prices "A" [(1, 2), (2, 3)] "TWSE" [⟨"B", 1, 7, "TWSE"⟩]) ∧
    keyVal (upsertRow ⟨"A", 1, 5, "TPEX"⟩ [⟨"A", 1, 2, "TWSE"⟩]) "A" 1 = some (5, "TPEX") ∧
    keyVal (upsertRow ⟨"A", 1, 5, "TPEX"⟩ [⟨"A", 1, 2, "TWSE"⟩]) "B" 9
      = keyVal [⟨"A", 1, 2, "TWSE"⟩] "B" 9 ∧
    keyVal (insert_stock_prices "A" [(1, 2), (2, 3)] "TWSE"
        (insert_stock_prices "A" [(1, 2), (2, 3)] "TWSE" [])) "A" 2
      = keyVal (insert_stock_prices "A" [(1, 2), (2, 3)] "TWSE" []) "A" 2 :=
  ⟨price_upsert_idempotent.1 _,
   by decide,
   price_upsert_idempotent.2.1 _ "A" _ "TWSE" (by decide),
   (price_upsert_idempotent.2.2.1 _ ⟨"A", 1, 5, "TPEX"⟩).1,
   (price_upsert_idempotent.2.2.1 _ ⟨"A", 1, 5, "TPEX"⟩).2 "B" 9 (by decide),
   price_upsert_idempotent.2.2.2 _ "A" _ "TWSE" "A" 2⟩

/- ===================== Batch updater lemmas ===================== -/

theorem any_symbol_eq_regHas (x : String) : ∀ reg : List RegRow,
    reg.any (fun r => r.symbol == x) = regHas reg x := by
  intro reg
  unfold regHas
  induction reg with
  | nil => rfl
  | cons r rest ih => simp [ih]

theorem update_last_update_syms (sym : String) (date : Nat) :
    ∀ reg, (update_last_update sym date reg).map (fun r => r.symbol)
      = reg.map (fun r => r.symbol) := by
  intro reg
  unfold update_last_update
  rw [List.map_map]
  apply List.map_congr_left
  intro a _
  simp only [Function.comp_apply]
  split <;> rfl

theorem update_stock_registry_syms (now : Nat)
    (fetch : String → Nat → Nat → Option (List (Nat × ℚ))) (sf : Bool) (sym : String)
    (days : Nat) (db : DB) :
    ((update_stock now fetch sf sym days db).2.registry).map (fun r => r.symbol)
      = db.registry.map (fun r => r.symbol) := by
  unfold update_stock update_stock_try fetch_and_store
  cases hld : get_latest_date db.prices sym with
  | some ld =>
    by_cases hle : now ≤ ld + 1
    · simp [hle]
    · simp only [hle, if_false]
      cases hf : fetch sym (ld + 1) now with
      | none => simp
      | some df =>
        by_cases he : df.isEmpty = true
        · simp [he]
        · cases sf
          · simp [he, update_last_update_syms]
          · simp [he]
  | none =>
    cases hf : fetch sym (now - (days + 60)) now with
    | none => simp
    | some df =>
      by_cases he : df.isEmpty = true
      · simp [he]
      · cases sf
        · simp [he, update_last_update_syms]
        · simp [he]

theorem batch_step_registry_syms (now : Nat)
    (fetch : String → Nat → Nat → Option (List (Nat × ℚ))) (sf : String → Bool) (days : Nat)
    (acc : BatchOut) (p : String × String) :
    ((batch_step now fetch sf days acc p).db.registry).map (fun r => r.symbol)
      = (add_stock_to_list p.1 p.2 "TW" acc.db.registry).map (fun r => r.symbol) := by
  unfold batch_step
  have hsyms := update_stock_registry_syms now fetch (sf p.1) p.1 days
    ⟨acc.db.prices, add_stock_to_list p.1 p.2 "TW" acc.db.registry⟩
  cases hu : update_stock now fetch (sf p.1) p.1 days
      ⟨acc.db.prices, add_stock_to_list p.1 p.2 "TW" acc.db.registry⟩ with
  | mk b db2 =>
    rw [hu] at hsyms
    cases b <;> simpa using hsyms

theorem regHas_of_syms_eq (reg reg' : List RegRow) (x : String)
    (h : reg.map (fun r => r.symbol) = reg'.map (fun r => r.symbol)) :
    regHas reg x = regHas reg' x := by
  unfold regHas
  rw [h]

theorem regHas_add (symbol name market x : String) (reg : List RegRow)
    (h : regHas reg x = true) :
    regHas (add_stock_to_list symbol name market reg) x = true := by
  unfold add_stock_to_list
  split
  · exact h
  · unfold regHas at h ⊢
    simp [h]

theorem regHas_add_self (symbol name market : String) (reg : List RegRow) :
    regHas (add_stock_to_list symbol name market reg) symbol = true := by
  unfold add_stock_to_list
  split
  · next hg => rw [← any_symbol_eq_regHas]; exact hg
  · unfold regHas
    simp

theorem add_syms_of_not_regHas (symbol name market : String) (reg : List RegRow)
    (h : regHas reg symbol = false) :
    (add_stock_to_list symbol name market reg).map (fun r => r.symbol)
      = reg.map (fun r => r.symbol) ++ [symbol] := by
  unfold add_stock_to_list
  rw [any_symbol_eq_regHas, h]
  simp

theorem batch_step_regHas_pres (now : Nat)
    (fetch : String → Nat → Nat → Option (List (Nat × ℚ))) (sf : String → Bool) (days : Nat)
    (acc : BatchOut) (p : String × String) (x : String) (h : regHas acc.db.registry x = true) :
    regHas (batch_step now fetch sf days acc p).db.registry x = true := by
  rw [regHas_of_syms_eq _ _ _ (batch_step_registry_syms now fetch sf days acc p)]
  exact regHas_add _ _ _ _ _ h

theorem batch_step_regHas_self (now : Nat)
    (fetch : String → Nat → Nat → Option (List (Nat × ℚ))) (sf : String → Bool) (days : Nat)
    (acc : BatchOut) (p : String × String) :
    regHas (batch_step now fetch sf days acc p).db.registry p.1 = true := by
  rw [regHas_of_syms_eq _ _ _ (batch_step_registry_syms now fetch sf days acc p)]
  exact regHas_add_self _ _ _ _

theorem batch_regHas_preserved (now : Nat)
    (fetch : String → Nat → Nat → Option (List (Nat × ℚ))) (sf : String → Bool) (days : Nat) :
    ∀ (l : List (String × String)) (acc : BatchOut) (x : String),
      regHas acc.db.registry x = true →
      regHas ((l.foldl (batch_step now fetch sf days) acc).db.registry) x = true := by
  intro l
  induction l with
  | nil => intro acc x h; exact h
  | cons p rest ih =>
    intro acc x h
    exact ih _ x (batch_step_regHas_pres now fetch sf days acc p x h)

theorem batch_all_registered (now : Nat)
    (fetch : String → Nat → Nat → Option (List (Nat × ℚ))) (sf : String → Bool) (days : Nat) :
    ∀ (l : List (String × String)) (acc : BatchOut) (p : String × String), p ∈ l →
      regHas ((l.foldl (batch_step now fetch sf days) acc).db.registry) p.1 = true := by
  intro l
  induction l with
  | nil => intro acc p hp; cases hp
  | cons q rest ih =>
    intro acc p hp
    rcases List.mem_cons.mp hp with hp | hp
    · subst hp
      exact batch_regHas_preserved now fetch sf days rest _ p.1
        (batch_step_regHas_self now fetch sf days acc p)
    · exact ih _ p hp

theorem batch_counts (now : Nat)
    (fetch : String → Nat → Nat → Option (List (Nat × ℚ))) (sf : String → Bool) (days : Nat) :
    ∀ (l : List (String × String)) (acc : BatchOut),
      (l.foldl (batch_step now fetch sf days) acc).success
        + (l.foldl (batch_step now fetch sf days) acc).fail
        = acc.success + acc.fail + l.length := by
  intro l
  induction l with
  | nil => intro acc; simp
  | cons p rest ih =>
    intro acc
    have hstep : (batch_step now fetch sf days acc p).success
        + (batch_step now fetch sf days acc p).fail = acc.success + acc.fail + 1 := by
      unfold batch_step
      cases update_stock now fetch (sf p.1) p.1 days
          ⟨acc.db.prices, add_stock_to_list p.1 p.2 "TW" acc.db.registry⟩ with
      | mk b db2 => cases b <;> simp <;> omega
    rw [List.foldl_cons, ih, List.length_cons]
    omega

theorem batch_registry_order (now : Nat)
    (fetch : String → Nat → Nat → Option (List (Nat × ℚ))) (sf : String → Bool) (days : Nat) :
    ∀ (l : List (String × String)) (acc : BatchOut),
      (∀ p ∈ l, regHas acc.db.registry p.1 = false) → (l.map Prod.fst).Nodup →
      ((l.foldl (batch_step now fetch sf days) acc).db.registry).map (fun r => r.symbol)
        = (acc.db.registry).map (fun r => r.symbol) ++ l.map Prod.fst := by
  intro l
  induction l with
  | nil => intro acc _ _; simp
  | cons q rest ih =>
    intro acc hnew hnd
    have hq : regHas acc.db.registry q.1 = false := hnew q (List.mem_cons_self q rest)
    have hstep : ((batch_step now fetch sf days acc q).db.registry).map (fun r => r.symbol)
        = (acc.db.registry).map (fun r => r.symbol) ++ [q.1] := by
      rw [batch_step_registry_syms, add_syms_of_not_regHas _ _ _ _ hq]
    have hrest : ∀ p ∈ rest, regHas (batch_step now fetch sf days acc q).db.registry p.1
        = false := by
      intro p hp
      have hne : q.1 ≠ p.1 := by
        intro he
        rw [List.map_cons, List.nodup_cons] at hnd
        exact hnd.1 (he ▸ List.mem_map_of_mem Prod.fst hp)
      have hacc : regHas acc.db.registry p.1 = false := hnew p (List.mem_cons_of_mem q hp)
      unfold regHas at hacc ⊢
      rw [hstep]
      simp [List.any_append, hacc, hne]
    have hnd' : (rest.map Prod.fst).Nodup := by
      rw [List.map_cons, List.nodup_cons] at hnd
      exact hnd.2
    rw [List.foldl_cons, ih _ hrest hnd', hstep]
    simp

/- ===================== Claim C4: batch update ===================== -/

/-- C4: `update_all_stocks` processes the input list sequentially; every
listed symbol ends up registered whatever its fetch outcome, the reported
success and failure counts always sum to the number of symbols (no
failure aborts the batch), a fresh registry ends up listing the symbols
exactly in input order, and in the concrete five-symbol scenario where
symbol #3's fetch fails the run reports 4 successes and 1 failure with
all five symbols registered. -/
theorem update_all_stocks_batch (now : Nat)
    (fetch : String → Nat → Nat → Option (List (Nat × ℚ))) (sf : String → Bool) (days : Nat)
    (stock_list : List (String × String)) (db : DB) :
    ((update_all_stocks now fetch sf stock_list days db).success
        + (update_all_stocks now fetch sf stock_list days db).fail = stock_list.length) ∧
    (∀ p ∈ stock_list,
        regHas (update_all_stocks now fetch sf stock_list days db).db.registry p.1 = true) ∧
    (db.registry = [] → (stock_list.map Prod.fst).Nodup →
        ((update_all_stocks now fetch sf stock_list days db).db.registry).map
            (fun r => r.symbol) = stock_list.map Prod.fst) ∧
    ((update_all_stocks 1000 fetch5 (fun _ => false) syms5 120 dbEmpty).success = 4 ∧
     (update_all_stocks 1000 fetch5 (fun _ => false) syms5 120 dbEmpty).fail = 1 ∧
     ∀ p ∈ syms5,
        regHas (update_all_stocks 1000 fetch5 (fun _ => false) syms5 120 dbEmpty).db.registry
          p.1 = true) := by
  refine ⟨?_, ?_, ?_, by decide, by decide, by decide⟩
  · have h := batch_counts now fetch sf days stock_list ⟨0, 0, db⟩
    simpa using h
  · intro p hp
    exact batch_all_registered now fetch sf days stock_list ⟨0, 0, db⟩ p hp
  · intro hreg hnd
    have h := batch_registry_order now fetch sf days stock_list ⟨0, 0, db⟩ ?_ hnd
    · rw [show update_all_stocks now fetch sf stock_list days db
          = stock_list.foldl (batch_step now fetch sf days) ⟨0, 0, db⟩ from rfl, h]
      simp [hreg]
    · intro p _
      show regHas db.registry p.1 = false
      rw [hreg]
      rfl

theorem update_all_stocks_batch_witness :
    (dbEmpty.registry = ([] : List RegRow) ∧ (syms5.map Prod.fst).Nodup) ∧
    ((update_all_stocks 1000 fetch5 (fun _ => false) syms5 120 dbEmpty).db.registry).map
        (fun r => r.symbol) = syms5.map Prod.fst ∧
    regHas (update_all_stocks 1000 fetch5 (fun _ => false) syms5 120 dbEmpty).db.registry
      "S3" = true ∧
    (update_all_stocks 1000 fetch5 (fun _ => false) syms5 120 dbEmpty).success
      + (update_all_stocks 1000 fetch5 (fun _ => false) syms5 120 dbEmpty).fail = 5 :=
  ⟨⟨rfl, by decide⟩,
   (update_all_stocks_batch 1000 fetch5 (fun _ => false) 120 syms5 dbEmpty).2.2.1 rfl
     (by decide),
   (update_all_stocks_batch 1000 fetch5 (fun _ => false) 120 syms5 dbEmpty).2.1
     ("S3", "c") (by decide),
   (update_all_stocks_batch 1000 fetch5 (fun _ => false) 120 syms5 dbEmpty).1⟩

/- ===================== Read-path lemmas ===================== -/

theorem sortRows_strict (prices : List Row) (sym : String) (uk : uniqueKeys prices) :
    ((prices.filter (fun r => r.symbol == sym)).insertionSort dateGe).Pairwise dateGt := by
  have hmemsym : ∀ r ∈ prices.filter (fun r => r.symbol == sym), r.symbol = sym := by
    intro r hr
    exact eq_of_beq (List.mem_filter.mp hr).2
  have hL : (prices.filter (fun r => r.symbol == sym)).Pairwise
      (fun a b => ¬(a.symbol = b.symbol ∧ a.date = b.date)) :=
    uk.sublist (List.filter_sublist prices)
  have hLne : (prices.filter (fun r => r.symbol == sym)).Pairwise
      (fun a b => a.date ≠ b.date) := by
    refine hL.imp_of_mem ?_
    intro a b ha hb hR hd
    exact hR ⟨(hmemsym a ha).trans (hmemsym b hb).symm, hd⟩
  have hDne : ((prices.filter (fun r => r.symbol == sym)).insertionSort dateGe).Pairwise
      (fun a b => a.date ≠ b.date) :=
    ((List.perm_insertionSort dateGe _).pairwise_iff (fun h => h.symm)).mpr hLne
  have hDsorted : ((prices.filter (fun r => r.symbol == sym)).insertionSort dateGe).Pairwise
      dateGe := List.sorted_insertionSort dateGe _
  exact (hDsorted.and hDne).imp (fun h => lt_of_le_of_ne h.1 h.2.symm)

theorem uniqueKeys_perm (prices prices' : List Row) (uk : uniqueKeys prices)
    (hperm : prices.Perm prices') : uniqueKeys prices' :=
  (hperm.pairwise_iff (fun hr hc => hr ⟨hc.1.symm, hc.2.symm⟩)).mp uk

theorem sortRows_unique (prices prices' : List Row) (sym : String) (uk : uniqueKeys prices)
    (hperm : prices.Perm prices') :
    (prices.filter (fun r => r.symbol == sym)).insertionSort dateGe
      = (prices'.filter (fun r => r.symbol == sym)).insertionSort dateGe := by
  refine List.eq_of_perm_of_sorted ?_ (sortRows_strict prices sym uk)
    (sortRows_strict prices' sym (uniqueKeys_perm _ _ uk hperm))
  exact ((List.perm_insertionSort _ _).trans (hperm.filter _)).trans
    (List.perm_insertionSort _ _).symm

theorem gsp_strict_asc (prices : List Row) (sym : String) (n : Nat) (uk : uniqueKeys prices) :
    (get_stock_prices prices sym n).Pairwise (fun p q => p.1 < q.1) := by
  have hT : (((prices.filter (fun r => r.symbol == sym)).insertionSort dateGe).take
      n).Pairwise dateGt :=
    (sortRows_strict prices sym uk).sublist (List.take_sublist n _)
  have hM : ((((prices.filter (fun r => r.symbol == sym)).insertionSort dateGe).take n).map
      (fun r => (r.date, r.close))).Pairwise (fun p q => q.1 < p.1) :=
    (List.pairwise_map).mpr hT
  have hAle : (get_stock_prices prices sym n).Pairwise fstLe :=
    List.sorted_insertionSort fstLe _
  have hAne : (get_stock_prices prices sym n).Pairwise (fun p q => p.1 ≠ q.1) :=
    ((List.perm_insertionSort fstLe _).pairwise_iff (fun h => h.symm)).mpr
      (hM.imp (fun h => ne_of_gt h))
  exact (hAle.and hAne).imp (fun h => lt_of_le_of_ne h.1 h.2)

theorem gsp_perm_inv (prices prices' : List Row) (sym : String) (n : Nat)
    (uk : uniqueKeys prices) (hperm : prices.Perm prices') :
    get_stock_prices prices sym n = get_stock_prices prices' sym n := by
  unfold get_stock_prices
  rw [sortRows_unique prices prices' sym uk hperm]

theorem gsp_points_stored (prices : List Row) (sym : String) (n : Nat) :
    ∀ p ∈ get_stock_prices prices sym n,
      ∃ r, r ∈ prices ∧ r.symbol = sym ∧ r.date = p.1 ∧ r.close = p.2 := by
  intro p hp
  have hpM : p ∈ (((prices.filter (fun r => r.symbol == sym)).insertionSort dateGe).take
      n).map (fun r => (r.date, r.close)) :=
    ((List.perm_insertionSort fstLe _).mem_iff).mp hp
  obtain ⟨q, hqT, hq⟩ := List.mem_map.mp hpM
  have hqD : q ∈ (prices.filter (fun r => r.symbol == sym)).insertionSort dateGe :=
    (List.take_sublist n _).subset hqT
  have hqL : q ∈ prices.filter (fun r => r.symbol == sym) :=
    ((List.perm_insertionSort dateGe _).mem_iff).mp hqD
  have hmf := List.mem_filter.mp hqL
  exact ⟨q, hmf.1, eq_of_beq hmf.2, by rw [← hq], by rw [← hq]⟩

theorem gsp_length (prices : List Row) (sym : String) (n : Nat) :
    (get_stock_prices prices sym n).length
      = min n (prices.filter (fun r => r.symbol == sym)).length := by
  unfold get_stock_prices
  rw [(List.perm_insertionSort fstLe _).length_eq, List.length_map, List.length_take,
    (List.perm_insertionSort dateGe _).length_eq]

theorem gsp_most_recent (prices : List Row) (sym : String) (n : Nat) (uk : uniqueKeys prices) :
    ∀ r ∈ prices, r.symbol = sym →
      r.date ∉ (get_stock_prices prices sym n).map Prod.fst →
      ∀ p ∈ get_stock_prices prices sym n, r.date < p.1 := by
  intro r hr hsym hnot p hp
  have hrL : r ∈ prices.filter (fun r => r.symbol == sym) :=
    List.mem_filter.mpr ⟨hr, by rw [hsym]; simp⟩
  have hrD : r ∈ (prices.filter (fun r => r.symbol == sym)).insertionSort dateGe :=
    ((List.perm_insertionSort dateGe _).mem_iff).mpr hrL
  have hpM : p ∈ (((prices.filter (fun r => r.symbol == sym)).insertionSort dateGe).take
      n).map (fun r => (r.date, r.close)) :=
    ((List.perm_insertionSort fstLe _).mem_iff).mp hp
  obtain ⟨q, hqT, hq⟩ := List.mem_map.mp hpM
  have hrT : r ∉ (((prices.filter (fun r => r.symbol == sym)).insertionSort dateGe).take n) := by
    intro hrT
    apply hnot
    have hmm : (r.date, r.close) ∈ (((prices.filter
        (fun r => r.symbol == sym)).insertionSort dateGe).take n).map
        (fun r => (r.date, r.close)) := List.mem_map_of_mem _ hrT
    have hmA : (r.date, r.close) ∈ get_stock_prices prices sym n :=
      ((List.perm_insertionSort fstLe _).mem_iff).mpr hmm
    exact List.mem_map_of_mem Prod.fst hmA
  have hD_eq : (((prices.filter (fun r => r.symbol == sym)).insertionSort dateGe).take n)
      ++ (((prices.filter (fun r => r.symbol == sym)).insertionSort dateGe).drop n)
      = (prices.filter (fun r => r.symbol == sym)).insertionSort dateGe :=
    List.take_append_drop n _
  have hstrict' : ((((prices.filter (fun r => r.symbol == sym)).insertionSort dateGe).take n)
      ++ (((prices.filter (fun r => r.symbol == sym)).insertionSort dateGe).drop
        n)).Pairwise dateGt := by
    rw [hD_eq]
    exact sortRows_strict prices sym uk
  have hrTD : r ∈ (((prices.filter (fun r => r.symbol == sym)).insertionSort dateGe).take n)
      ++ (((prices.filter (fun r => r.symbol == sym)).insertionSort dateGe).drop n) := by
    rw [hD_eq]
    exact hrD
  have hrDrop : r ∈ ((prices.filter (fun r => r.symbol == sym)).insertionSort dateGe).drop
      n := by
    rcases List.mem_append.mp hrTD with h | h
    · exact absurd h hrT
    · exact h
  have hlt := (List.pairwise_append.mp hstrict').2.2 q hqT r hrDrop
  rw [← hq]
  exact hlt

/- ===================== Claim C7: the read-path tail ===================== -/

/-- C7: `get_stock_prices prices sym n` returns an empty result when no
rows are stored for the symbol; under the `UNIQUE(symbol, date)`
constraint it is strictly ascending by date and independent of the
insertion order of the store; its points are exactly stored points of the
symbol, there are `min n (number stored)` of them, and every stored date
left out is older than every date returned (so the result is the `n` most
recent points). -/
theorem get_stock_prices_tail_spec (prices : List Row) (sym : String) (n : Nat) :
    (prices.filter (fun r => r.symbol == sym) = [] → get_stock_prices prices sym n = []) ∧
    (uniqueKeys prices → (get_stock_prices prices sym n).Pairwise (fun p q => p.1 < q.1)) ∧
    (uniqueKeys prices → ∀ prices', prices.Perm prices' →
        get_stock_prices prices sym n = get_stock_prices prices' sym n) ∧
    (∀ p ∈ get_stock_prices prices sym n,
        ∃ r, r ∈ prices ∧ r.symbol = sym ∧ r.date = p.1 ∧ r.close = p.2) ∧
    ((get_stock_prices prices sym n).length
        = min n (prices.filter (fun r => r.symbol == sym)).length) ∧
    (uniqueKeys prices → ∀ r ∈ prices, r.symbol = sym →
        r.date ∉ (get_stock_prices prices sym n).map Prod.fst →
        ∀ p ∈ get_stock_prices prices sym n, r.date < p.1) := by
  refine ⟨?_, ?_, ?_, gsp_points_stored prices sym n, gsp_length prices sym n, ?_⟩
  · intro h
    unfold get_stock_prices
    rw [h]
    simp [List.insertionSort]
  · intro uk
    exact gsp_strict_asc prices sym n uk
  · intro uk prices' hperm
    exact gsp_perm_inv prices prices' sym n uk hperm
  · intro uk
    exact gsp_most_recent prices sym n uk

theorem get_stock_prices_tail_spec_witness :
    uniqueKeys [⟨"A", 3, 5, "TWSE"⟩, ⟨"A", 1, 4, "TWSE"⟩, ⟨"B", 2, 9, "TWSE"⟩] ∧
    (get_stock_prices [⟨"A", 3, 5, "TWSE"⟩, ⟨"A", 1, 4, "TWSE"⟩, ⟨"B", 2, 9, "TWSE"⟩]
        "A" 2).Pairwise (fun p q => p.1 < q.1) ∧
    [(⟨"A", 3, 5, "TWSE"⟩ : Row), ⟨"A", 1, 4, "TWSE"⟩, ⟨"B", 2, 9, "TWSE"⟩].Perm
      [⟨"B", 2, 9, "TWSE"⟩, ⟨"A", 1, 4, "TWSE"⟩, ⟨"A", 3, 5, "TWSE"⟩] ∧
    get_stock_prices [⟨"A", 3, 5, "TWSE"⟩, ⟨"A", 1, 4, "TWSE"⟩, ⟨"B", 2, 9, "TWSE"⟩] "A" 2
      = get_stock_prices [⟨"B", 2, 9, "TWSE"⟩, ⟨"A", 1, 4, "TWSE"⟩, ⟨"A", 3, 5, "TWSE"⟩]
          "A" 2 ∧
    (get_stock_prices [⟨"A", 3, 5, "TWSE"⟩, ⟨"A", 1, 4, "TWSE"⟩, ⟨"B", 2, 9, "TWSE"⟩]
        "A" 2).length
      = min 2 ([(⟨"A", 3, 5, "TWSE"⟩ : Row), ⟨"A", 1, 4, "TWSE"⟩, ⟨"B", 2, 9, "TWSE"⟩].filter
          (fun r => r.symbol == "A")).length ∧
    ∀ p ∈ get_stock_prices [⟨"A", 3, 5, "TWSE"⟩, ⟨"A", 1, 4, "TWSE"⟩, ⟨"B", 2, 9, "TWSE"⟩]
        "A" 1, (1 : Nat) < p.1 :=
  ⟨by decide,
   (get_stock_prices_tail_spec [⟨"A", 3, 5, "TWSE"⟩, ⟨"A", 1, 4, "TWSE"⟩,
       ⟨"B", 2, 9, "TWSE"⟩] "A" 2).2.1 (by decide),
   by decide,
   (get_stock_prices_tail_spec [⟨"A", 3, 5, "TWSE"⟩, ⟨"A", 1, 4, "TWSE"⟩,
       ⟨"B", 2, 9, "TWSE"⟩] "A" 2).2.2.1 (by decide) _ (by decide),
   (get_stock_prices_tail_spec [⟨"A", 3, 5, "TWSE"⟩, ⟨"A", 1, 4, "TWSE"⟩,
       ⟨"B", 2, 9, "TWSE"⟩] "A" 2).2.2.2.2.1,
   (get_stock_prices_tail_spec [⟨"A", 3, 5, "TWSE"⟩, ⟨"A", 1, 4, "TWSE"⟩,
       ⟨"B", 2, 9, "TWSE"⟩] "A" 1).2.2.2.2.2 (by decide) ⟨"A", 1, 4, "TWSE"⟩ (by decide)
     (by decide) (by decide)⟩

/- ===================== Ranking order lemmas ===================== -/

theorem lexLe3_total (x y : ℚ × ℚ × ℚ) : lexLe3 x y ∨ lexLe3 y x := by
  rcases lt_trichotomy x.1 y.1 with h | h | h
  · exact Or.inl (Or.inl h)
  · rcases lt_trichotomy x.2.1 y.2.1 with h2 | h2 | h2
    · exact Or.inl (Or.inr ⟨h, Or.inl h2⟩)
    · rcases le_total x.2.2 y.2.2 with h3 | h3
      · exact Or.inl (Or.inr ⟨h, Or.inr ⟨h2, h3⟩⟩)
      · exact Or.inr (Or.inr ⟨h.symm, Or.inr ⟨h2.symm, h3⟩⟩)
    · exact Or.inr (Or.inr ⟨h.symm, Or.inl h2⟩)
  · exact Or.inr (Or.inl h)

theorem lexLe3_trans (x y z : ℚ × ℚ × ℚ) (hxy : lexLe3 x y) (hyz : lexLe3 y z) :
    lexLe3 x z := by
  rcases hxy with h1 | ⟨e1, h1⟩
  · rcases hyz with h2 | ⟨e2, h2⟩
    · exact Or.inl (h1.trans h2)
    · exact Or.inl (by rw [← e2]; exact h1)
  · rcases hyz with h2 | ⟨e2, h2⟩
    · exact Or.inl (by rw [e1]; exact h2)
    · refine Or.inr ⟨e1.trans e2, ?_⟩
      rcases h1 with g1 | ⟨f1, g1⟩
      · rcases h2 with g2 | ⟨f2, g2⟩
        · exact Or.inl (g1.trans g2)
        · exact Or.inl (by rw [← f2]; exact g1)
      · rcases h2 with g2 | ⟨f2, g2⟩
        · exact Or.inl (by rw [f1]; exact g2)
        · exact Or.inr ⟨f1.trans f2, g1.trans g2⟩

instance : IsTotal RankEntry rankRel := ⟨fun a b => lexLe3_total (keyOf b) (keyOf a)⟩

instance : IsTrans RankEntry rankRel :=
  ⟨fun _ _ _ hab hbc => lexLe3_trans _ _ _ hbc hab⟩

/- ===================== Claim C5: ranking order ===================== -/

/-- C5: whenever the ranking operation returns a leaderboard, every
adjacent pair of entries is ordered: the (120-day, 20-day, 10-day)
coefficient tuple of the later entry is lexicographically at most that of
the earlier one (a strict multi-key tie-break, not a weighted average). -/
theorem find_correlated_stocks_sorted (prices : List Row) (reg : List RegRow)
    (provider : String → Bool) (target : String) (univ : List String) (top_n : Nat)
    (out : List RankEntry)
    (h : find_correlated_stocks prices reg provider target univ top_n = some out) :
    out.Chain' (fun a b => lexLe3 (keyOf b) (keyOf a)) := by
  unfold find_correlated_stocks at h
  cases hres : CorrelationEngine.get_full_symbol prices provider target with
  | none =>
    rw [hres] at h
    cases h
  | some tgt =>
    rw [hres] at h
    by_cases hemp : (get_stock_prices prices tgt 120).isEmpty = true
    · simp only [hemp, if_true] at h
      cases h
    · simp only [hemp, if_false, Bool.false_eq_true] at h
      have hx := Option.some.inj h
      rw [← hx]
      refine List.Pairwise.chain' ?_
      refine List.Pairwise.imp (fun hr => hr) ?_
      refine List.Pairwise.sublist (List.take_sublist _ _) ?_
      exact List.sorted_insertionSort rankRel _

theorem find_correlated_stocks_sorted_witness :
    find_correlated_stocks [⟨"T.TW", 1, 1, "TWSE"⟩, ⟨"C.TW", 1, 2, "TWSE"⟩] []
        (fun _ => false) "T.TW" ["C.TW"] 5 = some [] ∧
    List.Chain' (fun a b => lexLe3 (keyOf b) (keyOf a)) [] :=
  ⟨by decide,
   find_correlated_stocks_sorted [⟨"T.TW", 1, 1, "TWSE"⟩, ⟨"C.TW", 1, 2, "TWSE"⟩] []
     (fun _ => false) "T.TW" ["C.TW"] 5 [] (by decide)⟩
